import Mathlib

/-!
Verification of the metadata-scraper crawler (src/runner.py,
src/extractors/utils.py, src/extractors/metadata_parser.py).

The Python code is shallowly embedded: strings are `String`/`List Char`,
`Optional[str]` is `Option String`, raising code is `Except Unit`.
External capabilities (the HTTP transport, the HTML query primitives and the
boilerplate-removal algorithm) are oracles supplied through an `Env` /
abstract `Doc` record, exactly as the spec declares them out of scope.
Python's `urllib.parse` and `fnmatch`, which `normalize_url` and
`match_any_glob` call, are modelled here (ASCII whitespace; the rarely-hit
bracketed-host validation of `urlsplit` is omitted).
-/

/-- ASCII whitespace as stripped by Python's `str.strip()` and matched by the
regex class `\s` (the model restricts Python's Unicode whitespace to ASCII). -/
def pyWs (c : Char) : Bool :=
  c == ' ' || c == '\t' || c == '\n' || c == '\x0b' || c == '\x0c' || c == '\r'

/-- One-sided whitespace drop. -/
def dropWs (l : List Char) : List Char := l.dropWhile pyWs

/-- Python `str.strip()` on the character list. -/
def trim (l : List Char) : List Char := (dropWs (dropWs l).reverse).reverse

/-- Python `c in s` for a single character. -/
def containsC (c : Char) (l : List Char) : Bool := l.any (fun x => x == c)

/-- Membership in `urllib.parse._WHATWG_C0_CONTROL_OR_SPACE` (code points 0x00-0x20). -/
def isC0OrSpace (c : Char) : Bool := c.toNat ≤ 0x20

/-- `urlsplit` removes the unsafe bytes tab, carriage return and newline. -/
def removeUnsafe (l : List Char) : List Char :=
  l.filter (fun c => !(c == '\t' || c == '\r' || c == '\n'))

/-- Membership in `urllib.parse.scheme_chars`. -/
def isSchemeChar (c : Char) : Bool :=
  c.isAlpha || c.isDigit || c == '+' || c == '-' || c == '.'

/-- The scheme-detection step of `urlsplit`: split at the first colon when the
prefix is a well-formed scheme, lower-casing it. -/
def splitScheme (url : List Char) : List Char × List Char :=
  match url.dropWhile (fun c => c != ':') with
  | ':' :: rest =>
    match url.takeWhile (fun c => c != ':') with
    | [] => ([], url)
    | c :: cs =>
      if c.isAlpha && (c :: cs).all isSchemeChar then
        ((c :: cs).map Char.toLower, rest)
      else ([], url)
  | _ => ([], url)

/-- Characters that end the network-location part in `_splitnetloc`. -/
def notDelim (c : Char) : Bool := !(c == '/' || c == '?' || c == '#')

/-- `urllib.parse._splitnetloc(url, 2)`. -/
def splitNetloc (url : List Char) : List Char × List Char :=
  ((url.drop 2).takeWhile notDelim, (url.drop 2).dropWhile notDelim)

/-- Python `s.split(c, 1)` for a character known to occur in `s`. -/
def splitAtFirst (c : Char) (l : List Char) : List Char × List Char :=
  (l.takeWhile (fun x => x != c), (l.dropWhile (fun x => x != c)).drop 1)

/-- Result record of `urllib.parse.urlparse` (the fields `normalize_url` and
`crawl` read, plus params/query/fragment needed by `urldefrag`). -/
structure ParseResult where
  scheme : List Char
  netloc : List Char
  path : List Char
  params : List Char
  query : List Char
  frag : List Char
deriving Repr, DecidableEq

/-- `urllib.parse._splitparams`: split parameters off the last path segment. -/
def splitparams (p : List Char) : List Char × List Char :=
  if containsC '/' p then
    let tl := (p.reverse.takeWhile (fun c => c != '/')).reverse
    if containsC ';' tl then
      (p.take (p.length - tl.length) ++ tl.takeWhile (fun c => c != ';'),
       (tl.dropWhile (fun c => c != ';')).drop 1)
    else (p, [])
  else splitAtFirst ';' p

/-- Model of `urllib.parse.urlsplit` followed by the params split of
`urlparse` (bracketed-host validation omitted). -/
def urlparse (url0 : List Char) : ParseResult :=
  let url1 := removeUnsafe (lstripC0 url0)
  let sp := splitScheme url1
  let nl := if sp.2.take 2 = ['/', '/'] then splitNetloc sp.2 else ([], sp.2)
  let fr := if containsC '#' nl.2 then splitAtFirst '#' nl.2 else (nl.2, [])
  let qu := if containsC '?' fr.1 then splitAtFirst '?' fr.1 else (fr.1, [])
  let pa := if containsC ';' qu.1 then splitparams qu.1 else (qu.1, [])
  { scheme := sp.1, netloc := nl.1, path := pa.1, params := pa.2,
    query := qu.2, frag := fr.2 }
where
  /-- `urlsplit` strips leading C0-control/space characters only. -/
  lstripC0 (l : List Char) : List Char := l.dropWhile isC0OrSpace

/-- `urllib.parse.urlunsplit`. -/
def urlunsplit (scheme netloc path query frag : List Char) : List Char :=
  let u1 :=
    if netloc ≠ [] ∨ (path ≠ [] ∧ path.take 2 = ['/', '/']) then
      '/' :: '/' :: (netloc ++ (if path ≠ [] ∧ path.take 1 ≠ ['/'] then '/' :: path else path))
    else path
  let u2 := if scheme ≠ [] then scheme ++ ':' :: u1 else u1
  let u3 := if query ≠ [] then u2 ++ '?' :: query else u2
  if frag ≠ [] then u3 ++ '#' :: frag else u3

/-- `urllib.parse.urlunparse`. -/
def urlunparse (r : ParseResult) : List Char :=
  urlunsplit r.scheme r.netloc
    (if r.params ≠ [] then r.path ++ ';' :: r.params else r.path) r.query r.frag

/-- `urllib.parse.urldefrag`, keeping only the defragmented URL (the fragment
half of the returned pair is discarded by `normalize_url`). -/
def urldefrag (url : List Char) : List Char :=
  if containsC '#' url then urlunparse { urlparse url with frag := [] } else url

/-- `normalize_url` from src/extractors/utils.py: trim, drop the fragment,
reject schemeless input, and give bare http/https hosts a root path. -/
def normalize_url : Option String → Option String
  | none => none
  | some s =>
    if s = "" then none
    else
      let u1 := urldefrag (trim s.data)
      let p := urlparse u1
      if p.scheme = [] then none
      else if (p.scheme = "http".data ∨ p.scheme = "https".data) ∧ p.path = [] then
        some (String.mk (p.scheme ++ ':' :: '/' :: '/' :: (p.netloc ++ ['/'])))
      else some (String.mk u1)

/-- `urlparse(u).netloc` as used by the same-origin link heuristic in `crawl`. -/
def netlocOf (s : String) : List Char := (urlparse s.data).netloc

/-- Scan for the bracket that closes a glob character class, returning the
class body and the remaining pattern. -/
def findClose : List Char → Option (List Char × List Char)
  | [] => none
  | c :: t =>
    if c = ']' then some ([], t)
    else (findClose t).map (fun p => (c :: p.1, p.2))

/-- Body of the class extraction once a leading `!` has been accounted for: a
`]` in first position is a literal member, the body runs to the next `]`. -/
def splitClassCore (neg : Bool) (l : List Char) : Option (Bool × List Char × List Char) :=
  if l.head? = some ']' then (findClose l.tail).map (fun p => (neg, ']' :: p.1, p.2))
  else (findClose l).map (fun p => (neg, p.1, p.2))

/-- The class-extraction step of `fnmatch.translate`: an optional leading `!`
negates; `none` when the class is unterminated (the `[` is then literal). -/
def splitClass (l : List Char) : Option (Bool × List Char × List Char) :=
  if l.head? = some '!' then splitClassCore true l.tail else splitClassCore false l

theorem findClose_length : ∀ l a b, findClose l = some (a, b) → b.length < l.length := by
  intro l
  induction l with
  | nil => intro a b h; simp [findClose] at h
  | cons c t ih =>
    intro a b h
    rw [findClose] at h
    split at h
    · simp at h
      rw [← h.2]
      simp
    · rcases ht : findClose t with _ | ⟨p1, p2⟩ <;> rw [ht] at h <;> simp at h
      have := ih p1 p2 ht
      rcases h with ⟨h1, h2⟩
      subst h2
      simp
      omega

theorem splitClassCore_length : ∀ neg l n a b,
    splitClassCore neg l = some (n, a, b) → b.length < l.length := by
  intro neg l n a b h
  rw [splitClassCore] at h
  split at h
  · rcases ht : findClose l.tail with _ | ⟨p1, p2⟩ <;> rw [ht] at h <;> simp at h
    have hlen := findClose_length l.tail p1 p2 ht
    rcases h with ⟨h1, h2, h3⟩
    subst h3
    have : l ≠ [] := by
      intro he
      subst he
      simp at *
    have := List.length_tail l
    omega
  · rcases ht : findClose l with _ | ⟨p1, p2⟩ <;> rw [ht] at h <;> simp at h
    have hlen := findClose_length l p1 p2 ht
    rcases h with ⟨h1, h2, h3⟩
    subst h3
    omega

theorem splitClass_length : ∀ l n a b,
    splitClass l = some (n, a, b) → b.length < l.length := by
  intro l n a b h
  rw [splitClass] at h
  split at h
  · have hlen := splitClassCore_length true l.tail n a b h
    have : l ≠ [] := by
      intro he
      subst he
      simp at *
    have := List.length_tail l
    omega
  · exact splitClassCore_length false l n a b h

/-- Range-aware membership test for a glob character class (`a-z` spans code
points, as in the regex `fnmatch.translate` produces). -/
def inClass : List Char → Char → Bool
  | a :: '-' :: b :: rest, c => (a ≤ c && c ≤ b) || inClass rest c
  | a :: rest, c => (a == c) || inClass rest c
  | [], _ => false

/-- Fuel-indexed glob matcher.  Every recursive call strictly decreases
`p.length + s.length` (the class case drops at least the class body from the
pattern and one character from the string), so with fuel exceeding that sum
the out-of-fuel branch is unreachable; the fuel only makes the recursion
structural so that the kernel can evaluate it. -/
def globMatchF : Nat → List Char → List Char → Bool
  | 0, _, _ => false
  | fuel + 1, p, s =>
    match p, s with
    | [], s => s.isEmpty
    | '*' :: ps, s =>
      globMatchF fuel ps s ||
        (match s with
          | [] => false
          | _ :: s2 => globMatchF fuel ('*' :: ps) s2)
    | '?' :: ps, s =>
      (match s with
        | [] => false
        | _ :: s2 => globMatchF fuel ps s2)
    | '[' :: ps, s =>
      (match splitClass ps with
        | some r =>
          (match s with
            | [] => false
            | c :: s2 => (inClass r.2.1 c != r.1) && globMatchF fuel r.2.2 s2)
        | none =>
          (match s with
            | [] => false
            | c :: s2 => (c == '[') && globMatchF fuel ps s2))
    | a :: ps, s =>
      (match s with
        | [] => false
        | c :: s2 => (a == c) && globMatchF fuel ps s2)

/-- Glob matching as performed by `fnmatch.fnmatch`: `*` matches any run, `?`
any single character, `[...]` a character class (`!` negation, ranges, a
leading `]` literal, an unterminated `[` literal), and any other character
itself; the whole string must match. -/
def globMatch (p : List Char) (s : List Char) : Bool :=
  globMatchF (p.length + s.length + 1) p s

/-- Python `str.replace("**", "*")`: left-to-right, non-overlapping. -/
def replaceDoubleStar : List Char → List Char
  | '*' :: '*' :: rest => '*' :: replaceDoubleStar rest
  | c :: rest => c :: replaceDoubleStar rest
  | [] => []

/-- `match_any_glob` from src/extractors/utils.py: expand `**` to `*`, then
test the target against each pattern; an empty pattern list never matches. -/
def match_any_glob (target : String) (globs : List String) : Bool :=
  globs.any (fun pat => globMatch (replaceDoubleStar pat.data) target.data)

/-- `should_ignore` from src/runner.py. -/
def should_ignore (url : String) (ignore_globs : List String) : Bool :=
  match_any_glob url ignore_globs

/-- `classify_url` from src/runner.py: scrape-glob match wins over
pagination-glob match; no match is "unknown". -/
def classify_url (url : String) (scrape_globs pagination_globs : List String) : String :=
  if match_any_glob url scrape_globs then "detail"
  else if match_any_glob url pagination_globs then "pagination"
  else "unknown"

/-- `CrawlConfig` from src/runner.py.  `delay_seconds` is omitted: it only
inserts a sleep and never affects the crawl state. -/
structure CrawlConfig where
  start_urls : List String
  scrape_url_globs : List String
  pagination_url_globs : List String
  ignore_url_globs : List String
  max_requests_per_crawl : Nat
  output_file : String
deriving Repr, DecidableEq

/-- The record `parse_metadata` returns for one page. -/
structure PageRecord where
  url : String
  title : Option String
  description : Option String
  heading : Option String
  article : Option String
deriving Repr, DecidableEq

/-- An HTTP response as the external transport reports it: body text, final
(post-redirect) URL and status code. -/
structure FetchResp where
  text : String
  url : String
  status_code : Nat
deriving Repr, DecidableEq

/-- The external capabilities `crawl` consumes, as oracles: the transport
(`requests.Session.get`, which may raise), link discovery (`find_links`) and
metadata extraction (`parse_metadata`), each of which `crawl` guards with a
try/except. -/
structure Env where
  get : String → Except Unit FetchResp
  find_links : String → String → Except Unit (List String)
  parse_meta : String → String → Except Unit PageRecord

/-- `fetch_html` from src/extractors/utils.py: perform the transport request
and `raise_for_status`, which raises on any 4xx or 5xx status code. -/
def fetch_html (env : Env) (url : String) : Except Unit FetchResp :=
  match env.get url with
  | .error e => .error e
  | .ok r => if 400 ≤ r.status_code ∧ r.status_code < 600 then .error () else .ok r

/-- The mutable state of one `crawl` run.  `fetched`, `extracted` and
`linkPages` are ghost trace fields recording, in order, the arguments of every
`fetch_html` attempt, every `parse_metadata` call and every link-discovery
pass; they instrument the code for specification and never feed back into it. -/
structure CrawlState where
  to_visit : List (String × Option String)
  visited : List String
  results : List PageRecord
  num_requests : Nat
  fetched : List String
  extracted : List String
  linkPages : List String
deriving Repr, DecidableEq

/-- Seeding of the frontier in `crawl`: normalize each start URL and enqueue
the truthy results with a null referrer. -/
def initState (cfg : CrawlConfig) : CrawlState :=
  { to_visit := cfg.start_urls.filterMap (fun u =>
      match normalize_url (some u) with
      | some n => if n = "" then none else some (n, (none : Option String))
      | none => none),
    visited := [], results := [], num_requests := 0,
    fetched := [], extracted := [], linkPages := [] }

/-- Post-redirect renormalization in `crawl`:
`url = normalize_url(final_url) or url`. -/
def finalUrl (url : String) (r : FetchResp) : String :=
  match normalize_url (some r.url) with
  | some n => if n = "" then url else n
  | none => url

/-- The per-link body of the discovery loop in `crawl`: normalize, discard
falsy/visited/ignored links, then enqueue detail/pagination links always and
unknown links only on the same network host as the current page. -/
def processLink (cfg : CrawlConfig) (visited : List String) (pageUrl link : String) :
    Option (String × Option String) :=
  match normalize_url (some link) with
  | none => none
  | some norm =>
    if norm = "" ∨ norm ∈ visited then none
    else if should_ignore norm cfg.ignore_url_globs then none
    else if classify_url norm cfg.scrape_url_globs cfg.pagination_url_globs = "detail"
        ∨ classify_url norm cfg.scrape_url_globs cfg.pagination_url_globs = "pagination" then
      some (norm, some pageUrl)
    else if netlocOf norm = netlocOf pageUrl then
      some (norm, some pageUrl)
    else none

/-- The metadata-extraction block of `crawl`: run when the page classifies
"detail", or when no scrape globs are configured and the page is not
"pagination"; an extraction fault is caught and yields no record. -/
def extractPhase (cfg : CrawlConfig) (env : Env) (html url' : String)
    (st : CrawlState) : CrawlState :=
  if classify_url url' cfg.scrape_url_globs cfg.pagination_url_globs = "detail"
      ∨ (cfg.scrape_url_globs = []
         ∧ classify_url url' cfg.scrape_url_globs cfg.pagination_url_globs ≠ "pagination") then
    match env.parse_meta html url' with
    | .ok m => { st with extracted := st.extracted ++ [url'], results := st.results ++ [m] }
    | .error _ => { st with extracted := st.extracted ++ [url'] }
  else st

/-- The link-discovery block of `crawl`: run only for "pagination" or
"unknown" pages; a discovery fault is caught and enqueues nothing. -/
def discoverPhase (cfg : CrawlConfig) (env : Env) (html url' : String)
    (st : CrawlState) : CrawlState :=
  if classify_url url' cfg.scrape_url_globs cfg.pagination_url_globs = "pagination"
      ∨ classify_url url' cfg.scrape_url_globs cfg.pagination_url_globs = "unknown" then
    match env.find_links html url' with
    | .ok ls =>
      { st with
          linkPages := st.linkPages ++ [url'],
          to_visit := st.to_visit ++ ls.filterMap (processLink cfg st.visited url') }
    | .error _ => { st with linkPages := st.linkPages ++ [url'] }
  else st

/-- Processing of a usable transport response in `crawl`: discard non-success
or empty bodies, renormalize on the final URL, then extract and discover. -/
def handleResponse (cfg : CrawlConfig) (env : Env) (url : String) (r : FetchResp)
    (st : CrawlState) : CrawlState :=
  if 400 ≤ r.status_code ∨ r.text = "" then st
  else
    discoverPhase cfg env r.text (finalUrl url r)
      (extractPhase cfg env r.text (finalUrl url r) st)

/-- Processing of one dequeued frontier entry in `crawl`: skip falsy or
already-visited URLs without side effects, mark visited before anything else,
skip ignored URLs without fetching, then attempt the fetch — the request
counter increments only when `fetch_html` returns without raising. -/
def processEntry (cfg : CrawlConfig) (env : Env) (st : CrawlState)
    (url : String) (referrer : Option String) : CrawlState :=
  if url = "" ∨ url ∈ st.visited then st
  else if should_ignore url cfg.ignore_url_globs then
    { st with visited := url :: st.visited }
  else
    match fetch_html env url with
    | .error _ => { st with visited := url :: st.visited, fetched := st.fetched ++ [url] }
    | .ok r =>
      handleResponse cfg env url r
        { st with
            visited := url :: st.visited,
            fetched := st.fetched ++ [url],
            num_requests := st.num_requests + 1 }

/-- One guarded iteration of the `while` loop in `crawl`: the termination
condition (frontier empty or budget reached) is checked before the dequeue. -/
def crawlStep (cfg : CrawlConfig) (env : Env) (st : CrawlState) : CrawlState :=
  if st.num_requests < cfg.max_requests_per_crawl then
    match st.to_visit with
    | [] => st
    | (url, ref) :: rest => processEntry cfg env { st with to_visit := rest } url ref
  else st

/-- `n` iterations of the crawl loop. -/
def runN (cfg : CrawlConfig) (env : Env) : Nat → CrawlState → CrawlState
  | 0, st => st
  | n + 1, st => runN cfg env n (crawlStep cfg env st)

/-- The loop guard of `crawl` has failed: frontier exhausted or budget reached. -/
def crawlDone (cfg : CrawlConfig) (st : CrawlState) : Prop :=
  st.to_visit = [] ∨ cfg.max_requests_per_crawl ≤ st.num_requests

instance (cfg : CrawlConfig) (st : CrawlState) : Decidable (crawlDone cfg st) := by
  unfold crawlDone
  infer_instance

/-- Python string truthiness for an `Optional[str]` value. -/
def truthyS : Option String → Bool
  | none => false
  | some s => !(s == "")

/-- Python `a or b` on `Optional[str]` values. -/
def pyOr (a b : Option String) : Option String := if truthyS a then a else b

/-- Python `str.strip()` on a `String`. -/
def pyStrip (s : String) : String := String.mk (trim s.data)

/-- Character-by-character whitespace-run collapse: emit one space at the
first character of each run, skip the rest; `prevWs` records whether the
previous character was part of a run. -/
def collapseGo (prevWs : Bool) : List Char → List Char
  | [] => []
  | c :: rest =>
    if pyWs c then
      if prevWs then collapseGo true rest else ' ' :: collapseGo true rest
    else c :: collapseGo false rest

/-- The substitution `re.sub(r"\s+", " ", text)`: every maximal whitespace
run is replaced by a single space (ASCII whitespace). -/
def collapseWs (l : List Char) : List Char := collapseGo false l

/-- `_clean_whitespace` from src/extractors/metadata_parser.py: a falsy input
(None or the empty string) is returned unchanged; otherwise whitespace runs
collapse to single spaces and the ends are trimmed. -/
def clean_whitespace : Option String → Option String
  | none => none
  | some s => if s = "" then some s else some (String.mk (trim (collapseWs s.data)))

/-- An HTML document as the extraction pipeline observes it through the
external query capability (BeautifulSoup) and the external boilerplate-removal
algorithm (readability).  Tag-lookup fields are `none` when the tag is absent;
a present tag carries its text resolution (`_text_or_none` never yields the
empty string, but the model does not rely on that).  `readability` is the
text of `Document(html).summary(...)`, or an exception. -/
structure Doc where
  metaNameTag : String → Option (Option String)
  metaPropTag : String → Option (Option String)
  titleTag : Option (Option String)
  h1Tag : Option (Option String)
  h2Tag : Option (Option String)
  readability : Except Unit (Option String)
  articleTag : Option (Option String)
  mainTag : Option (Option String)
  paragraphs : List String

/-- The body of one name lookup in `_first_meta`: the tag must exist and have
a truthy `content` attribute, which is then stripped. -/
def metaContent (t : Option (Option String)) : Option String :=
  match t with
  | some (some c) => if c = "" then none else some (pyStrip c)
  | _ => none

/-- `_first_meta` from src/extractors/metadata_parser.py: for each name in
order, try the `name=` lookup then the `property=` lookup. -/
def first_meta (doc : Doc) : List String → Option String
  | [] => none
  | n :: ns =>
    match metaContent (doc.metaNameTag n) with
    | some v => some v
    | none =>
      match metaContent (doc.metaPropTag n) with
      | some v => some v
      | none => first_meta doc ns

/-- Python `" ".join`. -/
def joinSpace : List String → String
  | [] => ""
  | [s] => s
  | s :: rest => s ++ " " ++ joinSpace rest

/-- Stage 1 of article resolution: the text the external readability
algorithm yields, or None when it raises. -/
def articleStage1 (doc : Doc) : Option String :=
  match doc.readability with
  | .ok t => t
  | .error _ => none

/-- Article resolution in `parse_metadata`: readability text if truthy, else
the `article` container, else the `main` container, else the first ten
non-empty paragraphs joined by spaces (None when that join is falsy); with no
container and no paragraphs the stage-1 value is kept. -/
def resolveArticle (doc : Doc) : Option String :=
  if truthyS (articleStage1 doc) then articleStage1 doc
  else
    match doc.articleTag with
    | some t => t
    | none =>
      match doc.mainTag with
      | some t => t
      | none =>
        if (doc.paragraphs.filter (fun p => !(p == ""))) ≠ [] then
          (if joinSpace ((doc.paragraphs.filter (fun p => !(p == ""))).take 10) = "" then none
           else some (joinSpace ((doc.paragraphs.filter (fun p => !(p == ""))).take 10)))
        else articleStage1 doc

/-- Title resolution in `parse_metadata`: the social/bibliographic meta
values, else the stripped title element string, else — when that is falsy —
the first h1 text when an h1 exists. -/
def resolveTitle (doc : Doc) : Option String :=
  let title0 := pyOr (first_meta doc ["og:title", "twitter:title", "dc.title"])
    (match doc.titleTag with
     | some (some s) => if s = "" then none else some (pyStrip s)
     | _ => none)
  if truthyS title0 then title0
  else
    match doc.h1Tag with
    | some t => t
    | none => title0

/-- Heading resolution in `parse_metadata`: the first h1 text, else the first
h2 text, resolved independently of the title. -/
def resolveHeading (doc : Doc) : Option String :=
  match doc.h1Tag with
  | some t => t
  | none =>
    match doc.h2Tag with
    | some t => t
    | none => none

/-- `parse_metadata` from src/extractors/metadata_parser.py over the abstract
document: title, description, heading and article resolved through their
prioritized fallback chains, every field whitespace-cleaned. -/
def parse_metadata (doc : Doc) (url : String) : PageRecord :=
  { url := url,
    title := clean_whitespace (resolveTitle doc),
    description := clean_whitespace
      (first_meta doc ["description", "og:description", "twitter:description"]),
    heading := clean_whitespace (resolveHeading doc),
    article := clean_whitespace (resolveArticle doc) }

theorem extractPhase_keeps (cfg : CrawlConfig) (env : Env) (html url' : String)
    (st : CrawlState) :
    (extractPhase cfg env html url' st).visited = st.visited ∧
    (extractPhase cfg env html url' st).fetched = st.fetched ∧
    (extractPhase cfg env html url' st).num_requests = st.num_requests ∧
    (extractPhase cfg env html url' st).to_visit = st.to_visit ∧
    (extractPhase cfg env html url' st).linkPages = st.linkPages := by
  unfold extractPhase
  split
  · split <;> simp
  · simp

theorem discoverPhase_keeps (cfg : CrawlConfig) (env : Env) (html url' : String)
    (st : CrawlState) :
    (discoverPhase cfg env html url' st).visited = st.visited ∧
    (discoverPhase cfg env html url' st).fetched = st.fetched ∧
    (discoverPhase cfg env html url' st).num_requests = st.num_requests ∧
    (discoverPhase cfg env html url' st).extracted = st.extracted ∧
    (discoverPhase cfg env html url' st).results = st.results := by
  unfold discoverPhase
  split
  · split <;> simp
  · simp

theorem handleResponse_keeps (cfg : CrawlConfig) (env : Env) (url : String)
    (r : FetchResp) (st : CrawlState) :
    (handleResponse cfg env url r st).visited = st.visited ∧
    (handleResponse cfg env url r st).fetched = st.fetched ∧
    (handleResponse cfg env url r st).num_requests = st.num_requests := by
  unfold handleResponse
  split
  · simp
  · have h1 := extractPhase_keeps cfg env r.text (finalUrl url r) st
    have h2 := discoverPhase_keeps cfg env r.text (finalUrl url r)
      (extractPhase cfg env r.text (finalUrl url r) st)
    exact ⟨h2.1.trans h1.1, h2.2.1.trans h1.2.1, h2.2.2.1.trans h1.2.2.1⟩

theorem processEntry_skip (cfg : CrawlConfig) (env : Env) (st : CrawlState)
    (url : String) (ref : Option String) (h : url = "" ∨ url ∈ st.visited) :
    processEntry cfg env st url ref = st := by
  unfold processEntry
  rw [if_pos h]

theorem processEntry_ignored (cfg : CrawlConfig) (env : Env) (st : CrawlState)
    (url : String) (ref : Option String) (h1 : ¬(url = "" ∨ url ∈ st.visited))
    (h2 : should_ignore url cfg.ignore_url_globs = true) :
    processEntry cfg env st url ref = { st with visited := url :: st.visited } := by
  unfold processEntry
  rw [if_neg h1, if_pos h2]

theorem processEntry_fetch_error (cfg : CrawlConfig) (env : Env) (st : CrawlState)
    (url : String) (ref : Option String) (h1 : ¬(url = "" ∨ url ∈ st.visited))
    (h2 : should_ignore url cfg.ignore_url_globs = false)
    (h3 : fetch_html env url = .error ()) :
    processEntry cfg env st url ref =
      { st with visited := url :: st.visited, fetched := st.fetched ++ [url] } := by
  unfold processEntry
  rw [if_neg h1, if_neg (by simp [h2]), h3]

theorem processEntry_fetch_ok (cfg : CrawlConfig) (env : Env) (st : CrawlState)
    (url : String) (ref : Option String) (r : FetchResp)
    (h1 : ¬(url = "" ∨ url ∈ st.visited))
    (h2 : should_ignore url cfg.ignore_url_globs = false)
    (h3 : fetch_html env url = .ok r) :
    processEntry cfg env st url ref =
      handleResponse cfg env url r
        { st with
            visited := url :: st.visited,
            fetched := st.fetched ++ [url],
            num_requests := st.num_requests + 1 } := by
  unfold processEntry
  rw [if_neg h1, if_neg (by simp [h2]), h3]

theorem bool_eq_false_of_not {b : Bool} (h : ¬ b = true) : b = false := by
  cases b
  · rfl
  · exact absurd rfl h

theorem processEntry_num_le (cfg : CrawlConfig) (env : Env) (st : CrawlState)
    (url : String) (ref : Option String) :
    (processEntry cfg env st url ref).num_requests ≤ st.num_requests + 1 := by
  by_cases h1 : url = "" ∨ url ∈ st.visited
  · rw [processEntry_skip cfg env st url ref h1]
    omega
  · by_cases h2 : should_ignore url cfg.ignore_url_globs = true
    · rw [processEntry_ignored cfg env st url ref h1 h2]
      simp
    · have h2f := bool_eq_false_of_not h2
      rcases h3 : fetch_html env url with e | r
      · cases e
        rw [processEntry_fetch_error cfg env st url ref h1 h2f h3]
        simp
      · rw [processEntry_fetch_ok cfg env st url ref r h1 h2f h3]
        rw [(handleResponse_keeps cfg env url r _).2.2]

theorem processEntry_tv_or_num (cfg : CrawlConfig) (env : Env) (st : CrawlState)
    (url : String) (ref : Option String) :
    ((processEntry cfg env st url ref).to_visit = st.to_visit ∧
     (processEntry cfg env st url ref).num_requests = st.num_requests) ∨
    (processEntry cfg env st url ref).num_requests = st.num_requests + 1 := by
  by_cases h1 : url = "" ∨ url ∈ st.visited
  · rw [processEntry_skip cfg env st url ref h1]
    exact Or.inl ⟨rfl, rfl⟩
  · by_cases h2 : should_ignore url cfg.ignore_url_globs = true
    · rw [processEntry_ignored cfg env st url ref h1 h2]
      exact Or.inl ⟨rfl, rfl⟩
    · have h2f := bool_eq_false_of_not h2
      rcases h3 : fetch_html env url with e | r
      · cases e
        rw [processEntry_fetch_error cfg env st url ref h1 h2f h3]
        exact Or.inl ⟨rfl, rfl⟩
      · rw [processEntry_fetch_ok cfg env st url ref r h1 h2f h3]
        exact Or.inr (handleResponse_keeps cfg env url r _).2.2

theorem processEntry_visited_cases (cfg : CrawlConfig) (env : Env) (st : CrawlState)
    (url : String) (ref : Option String) :
    (processEntry cfg env st url ref).visited = st.visited ∨
    (processEntry cfg env st url ref).visited = url :: st.visited := by
  by_cases h1 : url = "" ∨ url ∈ st.visited
  · rw [processEntry_skip cfg env st url ref h1]
    exact Or.inl rfl
  · by_cases h2 : should_ignore url cfg.ignore_url_globs = true
    · rw [processEntry_ignored cfg env st url ref h1 h2]
      exact Or.inr rfl
    · have h2f := bool_eq_false_of_not h2
      rcases h3 : fetch_html env url with e | r
      · cases e
        rw [processEntry_fetch_error cfg env st url ref h1 h2f h3]
        exact Or.inr rfl
      · rw [processEntry_fetch_ok cfg env st url ref r h1 h2f h3]
        exact Or.inr (handleResponse_keeps cfg env url r _).1

theorem processEntry_fetched_cases (cfg : CrawlConfig) (env : Env) (st : CrawlState)
    (url : String) (ref : Option String) :
    (processEntry cfg env st url ref).fetched = st.fetched ∨
    ((processEntry cfg env st url ref).fetched = st.fetched ++ [url] ∧
     ¬(url = "" ∨ url ∈ st.visited) ∧
     should_ignore url cfg.ignore_url_globs = false ∧
     (processEntry cfg env st url ref).visited = url :: st.visited) := by
  by_cases h1 : url = "" ∨ url ∈ st.visited
  · rw [processEntry_skip cfg env st url ref h1]
    exact Or.inl rfl
  · by_cases h2 : should_ignore url cfg.ignore_url_globs = true
    · rw [processEntry_ignored cfg env st url ref h1 h2]
      exact Or.inl rfl
    · have h2f := bool_eq_false_of_not h2
      rcases h3 : fetch_html env url with e | r
      · cases e
        rw [processEntry_fetch_error cfg env st url ref h1 h2f h3]
        exact Or.inr ⟨rfl, h1, h2f, rfl⟩
      · rw [processEntry_fetch_ok cfg env st url ref r h1 h2f h3]
        exact Or.inr ⟨(handleResponse_keeps cfg env url r _).2.1, h1, h2f,
          (handleResponse_keeps cfg env url r _).1⟩

/-- The run invariant behind the dedup and ignore guarantees: fetch attempts
are pairwise distinct, every attempted URL is already marked visited, and no
attempted URL matches an ignore glob. -/
def fetchInv (cfg : CrawlConfig) (st : CrawlState) : Prop :=
  st.fetched.Nodup ∧
  (∀ u, u ∈ st.fetched → u ∈ st.visited) ∧
  (∀ u, u ∈ st.fetched → should_ignore u cfg.ignore_url_globs = false)

theorem processEntry_fetchInv (cfg : CrawlConfig) (env : Env) (st : CrawlState)
    (url : String) (ref : Option String) (h : fetchInv cfg st) :
    fetchInv cfg (processEntry cfg env st url ref) := by
  obtain ⟨hnd, hsub, hign⟩ := h
  have hvis := processEntry_visited_cases cfg env st url ref
  rcases processEntry_fetched_cases cfg env st url ref with hf | ⟨hf, h1, h2, hv⟩
  · refine ⟨by rw [hf]; exact hnd, ?_, ?_⟩
    · intro u hu
      rw [hf] at hu
      rcases hvis with hv | hv <;> rw [hv]
      · exact hsub u hu
      · exact List.mem_cons_of_mem _ (hsub u hu)
    · intro u hu
      rw [hf] at hu
      exact hign u hu
  · have hnm : url ∉ st.fetched := by
      intro hmem
      exact h1 (Or.inr (hsub url hmem))
    refine ⟨?_, ?_, ?_⟩
    · rw [hf]
      simp [List.nodup_append, hnd, hnm]
    · intro u hu
      rw [hf] at hu
      rw [hv]
      rcases List.mem_append.mp hu with hu | hu
      · exact List.mem_cons_of_mem _ (hsub u hu)
      · simp at hu
        subst hu
        exact List.mem_cons_self _ _
    · intro u hu
      rw [hf] at hu
      rcases List.mem_append.mp hu with hu | hu
      · exact hign u hu
      · simp at hu
        subst hu
        exact h2

theorem crawlStep_fetchInv (cfg : CrawlConfig) (env : Env) (st : CrawlState)
    (h : fetchInv cfg st) : fetchInv cfg (crawlStep cfg env st) := by
  unfold crawlStep
  split
  · split
    · exact h
    · exact processEntry_fetchInv cfg env _ _ _ h
  · exact h

theorem runN_fetchInv (cfg : CrawlConfig) (env : Env) :
    ∀ n st, fetchInv cfg st → fetchInv cfg (runN cfg env n st) := by
  intro n
  induction n with
  | zero => intro st h; exact h
  | succ n ih =>
    intro st h
    exact ih (crawlStep cfg env st) (crawlStep_fetchInv cfg env st h)

theorem initState_fetchInv (cfg : CrawlConfig) : fetchInv cfg (initState cfg) := by
  refine ⟨List.nodup_nil, ?_, ?_⟩ <;> intro u hu <;> simp [initState] at hu

theorem crawlStep_num_le (cfg : CrawlConfig) (env : Env) (st : CrawlState)
    (h : st.num_requests ≤ cfg.max_requests_per_crawl) :
    (crawlStep cfg env st).num_requests ≤ cfg.max_requests_per_crawl := by
  unfold crawlStep
  split
  · split
    · exact h
    · refine Nat.le_trans (processEntry_num_le _ _ _ _ _) ?_
      show st.num_requests + 1 ≤ cfg.max_requests_per_crawl
      omega
  · exact h

theorem runN_num_le (cfg : CrawlConfig) (env : Env) :
    ∀ n st, st.num_requests ≤ cfg.max_requests_per_crawl →
      (runN cfg env n st).num_requests ≤ cfg.max_requests_per_crawl := by
  intro n
  induction n with
  | zero => intro st h; exact h
  | succ n ih =>
    intro st h
    exact ih (crawlStep cfg env st) (crawlStep_num_le cfg env st h)

/-- C3: Throughout any crawl run started from the seeded initial state, the
fetch-attempt counter never exceeds the configured maximum request budget:
the loop guard is checked before every dequeue and each iteration increments
the counter by at most one. -/
theorem c3_budget_never_exceeded (cfg : CrawlConfig) (env : Env) (n : Nat) :
    (runN cfg env n (initState cfg)).num_requests ≤ cfg.max_requests_per_crawl := by
  exact runN_num_le cfg env n (initState cfg) (Nat.zero_le _)

/-- C2: In any single crawl run, at most one fetch attempt is made per
normalized URL — the trace of `fetch_html` arguments has no duplicates — and
a dequeued URL that is already in the visited set is discarded without any
side effect on the state. -/
theorem c2_at_most_one_fetch_per_url (cfg : CrawlConfig) (env : Env) :
    (∀ n, ((runN cfg env n (initState cfg)).fetched).Nodup) ∧
    (∀ (st : CrawlState) (url : String) (ref : Option String),
      url ∈ st.visited → processEntry cfg env st url ref = st) := by
  constructor
  · intro n
    exact (runN_fetchInv cfg env n (initState cfg) (initState_fetchInv cfg)).1
  · intro st url ref h
    exact processEntry_skip cfg env st url ref (Or.inr h)

/-- C4: A URL matching any configured ignore glob is never fetched in any
reachable state of the crawl loop — every URL in the fetch-attempt trace
fails the ignore test — and processing an unvisited ignored URL stops before
the fetch: the state changes only by the visited mark, so the budget counter
is untouched. -/
theorem c4_ignored_never_fetched (cfg : CrawlConfig) (env : Env) :
    (∀ n u, u ∈ (runN cfg env n (initState cfg)).fetched →
      should_ignore u cfg.ignore_url_globs = false) ∧
    (∀ (st : CrawlState) (url : String) (ref : Option String),
      ¬(url = "" ∨ url ∈ st.visited) →
      should_ignore url cfg.ignore_url_globs = true →
      processEntry cfg env st url ref = { st with visited := url :: st.visited }) := by
  constructor
  · intro n u hu
    exact (runN_fetchInv cfg env n (initState cfg) (initState_fetchInv cfg)).2.2 u hu
  · intro st url ref h1 h2
    exact processEntry_ignored cfg env st url ref h1 h2

theorem runN_succ (cfg : CrawlConfig) (env : Env) (n : Nat) (st : CrawlState) :
    runN cfg env (n + 1) st = runN cfg env n (crawlStep cfg env st) := rfl

theorem crawl_term_aux (cfg : CrawlConfig) (env : Env) : ∀ k m st,
    cfg.max_requests_per_crawl - st.num_requests ≤ k →
    st.to_visit.length ≤ m →
    ∃ n, crawlDone cfg (runN cfg env n st) := by
  intro k
  induction k with
  | zero =>
    intro m st hk _
    refine ⟨0, ?_⟩
    simp only [runN]
    exact Or.inr (by omega)
  | succ k ihk =>
    intro m
    induction m with
    | zero =>
      intro st _ hm
      refine ⟨0, ?_⟩
      simp only [runN]
      refine Or.inl ?_
      cases htv : st.to_visit with
      | nil => rfl
      | cons p rest =>
        rw [htv] at hm
        simp at hm
    | succ m ihm =>
      intro st hk hm
      by_cases hd : crawlDone cfg st
      · exact ⟨0, hd⟩
      · have hlt : st.num_requests < cfg.max_requests_per_crawl := by
          unfold crawlDone at hd
          push_neg at hd
          omega
        obtain ⟨url, ref, rest, htv⟩ :
            ∃ url ref rest, st.to_visit = (url, ref) :: rest := by
          unfold crawlDone at hd
          push_neg at hd
          rcases htv : st.to_visit with _ | ⟨⟨u, rf⟩, rest⟩
          · exact absurd htv hd.1
          · exact ⟨u, rf, rest, rfl⟩
        have hstep : crawlStep cfg env st =
            processEntry cfg env { st with to_visit := rest } url ref := by
          unfold crawlStep
          rw [if_pos hlt, htv]
        have hrest : rest.length ≤ m := by
          have := congrArg List.length htv
          simp at this
          omega
        rcases processEntry_tv_or_num cfg env { st with to_visit := rest } url ref with
          ⟨htv2, hnum⟩ | hnum
        · obtain ⟨n, hn⟩ := ihm (crawlStep cfg env st)
            (by rw [hstep, hnum]; exact hk)
            (by rw [hstep, htv2]; exact hrest)
          exact ⟨n + 1, by rw [runN_succ]; exact hn⟩
        · obtain ⟨n, hn⟩ := ihk (crawlStep cfg env st).to_visit.length (crawlStep cfg env st)
            (by rw [hstep, hnum]; show cfg.max_requests_per_crawl - (st.num_requests + 1) ≤ k; omega)
            le_rfl
          exact ⟨n + 1, by rw [runN_succ]; exact hn⟩

/-- C10: The crawl loop terminates from every state, for every configuration
and every environment of fetch and link-discovery outcomes: after finitely
many iterations the loop guard fails (frontier empty or budget reached),
because frontier entries are only added in iterations that increment the
bounded request counter and every iteration removes one entry. -/
theorem c10_crawl_terminates (cfg : CrawlConfig) (env : Env) (st : CrawlState) :
    ∃ n, crawlDone cfg (runN cfg env n st) :=
  crawl_term_aux cfg env (cfg.max_requests_per_crawl - st.num_requests)
    st.to_visit.length st le_rfl le_rfl

/-- C1 (amended): the budget counter increments exactly once per fetch
attempt whose `fetch_html` call returns without raising; when `fetch_html`
raises — on a transport failure, or on any 4xx/5xx status such as 404, which
`raise_for_status` converts into an exception — the attempt is recorded but
the counter does not increment, no record is produced, and the loop proceeds
to the next frontier entry. -/
theorem c1_budget_increment_semantics (cfg : CrawlConfig) (env : Env) (st : CrawlState)
    (url : String) (ref : Option String)
    (h1 : ¬(url = "" ∨ url ∈ st.visited))
    (h2 : should_ignore url cfg.ignore_url_globs = false) :
    (fetch_html env url = .error () →
      processEntry cfg env st url ref =
        { st with visited := url :: st.visited, fetched := st.fetched ++ [url] }) ∧
    (∀ r, fetch_html env url = .ok r →
      (processEntry cfg env st url ref).num_requests = st.num_requests + 1 ∧
      (processEntry cfg env st url ref).fetched = st.fetched ++ [url]) ∧
    (∀ r, env.get url = .ok r → 400 ≤ r.status_code → r.status_code < 600 →
      fetch_html env url = .error ()) := by
  refine ⟨?_, ?_, ?_⟩
  · intro h3
    exact processEntry_fetch_error cfg env st url ref h1 h2 h3
  · intro r h3
    rw [processEntry_fetch_ok cfg env st url ref r h1 h2 h3]
    exact ⟨(handleResponse_keeps cfg env url r _).2.2, (handleResponse_keeps cfg env url r _).2.1⟩
  · intro r hget hlo hhi
    unfold fetch_html
    rw [hget]
    show (if 400 ≤ r.status_code ∧ r.status_code < 600
        then (Except.error () : Except Unit FetchResp) else Except.ok r) = Except.error ()
    rw [if_pos ⟨hlo, hhi⟩]

/-- Configuration for the 404 scenario: one start URL, a budget of five, no
glob patterns. -/
def cfg404 : CrawlConfig :=
  { start_urls := ["http://a.com/"], scrape_url_globs := [], pagination_url_globs := [],
    ignore_url_globs := [], max_requests_per_crawl := 5, output_file := "o" }

/-- Environment whose transport always reports status 404. -/
def env404 : Env :=
  { get := fun _ => .ok { text := "<html>x</html>", url := "http://a.com/", status_code := 404 },
    find_links := fun _ _ => .ok [],
    parse_meta := fun _ u =>
      .ok { url := u, title := none, description := none, heading := none, article := none } }

/-- C1 (counterexample): in a completed run in which the single dequeued
page's fetch returns status 404, exactly one fetch attempt is made but the
budget counter ends at 0, not 1 — `raise_for_status` turns the 404 into an
exception and `num_requests += 1` is never reached — refuting the claim that
the counter increments on every attempt regardless of outcome. -/
theorem c1_counterexample_404_not_counted :
    crawlDone cfg404 (runN cfg404 env404 1 (initState cfg404)) ∧
    (runN cfg404 env404 1 (initState cfg404)).fetched = ["http://a.com/"] ∧
    (runN cfg404 env404 1 (initState cfg404)).num_requests = 0 ∧
    (runN cfg404 env404 1 (initState cfg404)).results = [] := by
  decide

theorem extractPhase_extracted (cfg : CrawlConfig) (env : Env) (html u : String)
    (st : CrawlState) :
    (extractPhase cfg env html u st).extracted =
      (if classify_url u cfg.scrape_url_globs cfg.pagination_url_globs = "detail"
          ∨ (cfg.scrape_url_globs = []
             ∧ classify_url u cfg.scrape_url_globs cfg.pagination_url_globs ≠ "pagination")
        then st.extracted ++ [u] else st.extracted) := by
  unfold extractPhase
  split
  · split <;> simp
  · rfl

theorem discoverPhase_linkPages (cfg : CrawlConfig) (env : Env) (html u : String)
    (st : CrawlState) :
    (discoverPhase cfg env html u st).linkPages =
      (if classify_url u cfg.scrape_url_globs cfg.pagination_url_globs = "pagination"
          ∨ classify_url u cfg.scrape_url_globs cfg.pagination_url_globs = "unknown"
        then st.linkPages ++ [u] else st.linkPages) := by
  unfold discoverPhase
  split
  · split <;> simp
  · rfl

theorem classify_url_no_globs (u : String) : classify_url u [] [] = "unknown" := rfl

/-- C5: For every successfully fetched page, metadata extraction runs exactly
when the page (reclassified on its final URL) is "detail", or the scrape-glob
list is empty and the page is not "pagination"; in particular with both
pattern lists empty every successfully fetched page classifies "unknown", is
extracted as content, and has its links discovered in the same iteration. -/
theorem c5_extraction_policy (cfg : CrawlConfig) (env : Env) (st : CrawlState)
    (url : String) (r : FetchResp)
    (hok : ¬(400 ≤ r.status_code ∨ r.text = "")) :
    ((handleResponse cfg env url r st).extracted =
      (if classify_url (finalUrl url r) cfg.scrape_url_globs cfg.pagination_url_globs = "detail"
          ∨ (cfg.scrape_url_globs = []
             ∧ classify_url (finalUrl url r) cfg.scrape_url_globs cfg.pagination_url_globs
               ≠ "pagination")
        then st.extracted ++ [finalUrl url r] else st.extracted)) ∧
    (cfg.scrape_url_globs = [] → cfg.pagination_url_globs = [] →
      classify_url (finalUrl url r) cfg.scrape_url_globs cfg.pagination_url_globs = "unknown" ∧
      (handleResponse cfg env url r st).extracted = st.extracted ++ [finalUrl url r] ∧
      (handleResponse cfg env url r st).linkPages = st.linkPages ++ [finalUrl url r]) := by
  have hmain : handleResponse cfg env url r st =
      discoverPhase cfg env r.text (finalUrl url r)
        (extractPhase cfg env r.text (finalUrl url r) st) := by
    unfold handleResponse
    rw [if_neg hok]
  have hex : (handleResponse cfg env url r st).extracted =
      (extractPhase cfg env r.text (finalUrl url r) st).extracted := by
    rw [hmain]
    exact (discoverPhase_keeps cfg env r.text (finalUrl url r) _).2.2.2.1
  constructor
  · rw [hex, extractPhase_extracted]
  · intro hs hp
    refine ⟨?_, ?_, ?_⟩
    · rw [hs, hp]
      exact classify_url_no_globs _
    · rw [hex, extractPhase_extracted, hs, hp]
      simp [classify_url_no_globs]
    · rw [hmain, discoverPhase_linkPages,
        (extractPhase_keeps cfg env r.text (finalUrl url r) st).2.2.2.2, hs, hp]
      simp [classify_url_no_globs]

/-- C6: After normalization and the visited and ignore checks, a discovered
link classifying "detail" or "pagination" is enqueued unconditionally with
the current page as referrer, a link classifying "unknown" is enqueued
exactly when its network host equals the current page's network host, and
pages classifying "detail" never undergo link discovery at all. -/
theorem c6_reenqueue_policy (cfg : CrawlConfig) (visited : List String)
    (pageUrl link norm : String)
    (hnorm : normalize_url (some link) = some norm)
    (h1 : ¬(norm = "" ∨ norm ∈ visited))
    (h2 : should_ignore norm cfg.ignore_url_globs = false) :
    ((classify_url norm cfg.scrape_url_globs cfg.pagination_url_globs = "detail" ∨
      classify_url norm cfg.scrape_url_globs cfg.pagination_url_globs = "pagination") →
      processLink cfg visited pageUrl link = some (norm, some pageUrl)) ∧
    (classify_url norm cfg.scrape_url_globs cfg.pagination_url_globs = "unknown" →
      (processLink cfg visited pageUrl link = some (norm, some pageUrl) ↔
        netlocOf norm = netlocOf pageUrl)) ∧
    (∀ (env : Env) (html url' : String) (st : CrawlState),
      classify_url url' cfg.scrape_url_globs cfg.pagination_url_globs = "detail" →
      discoverPhase cfg env html url' st = st) := by
  have hbase : processLink cfg visited pageUrl link =
      (if classify_url norm cfg.scrape_url_globs cfg.pagination_url_globs = "detail"
          ∨ classify_url norm cfg.scrape_url_globs cfg.pagination_url_globs = "pagination" then
        some (norm, some pageUrl)
      else if netlocOf norm = netlocOf pageUrl then some (norm, some pageUrl)
      else none) := by
    unfold processLink
    rw [hnorm]
    show (if norm = "" ∨ norm ∈ visited then none
      else if should_ignore norm cfg.ignore_url_globs then none
      else if classify_url norm cfg.scrape_url_globs cfg.pagination_url_globs = "detail"
          ∨ classify_url norm cfg.scrape_url_globs cfg.pagination_url_globs = "pagination" then
        some (norm, some pageUrl)
      else if netlocOf norm = netlocOf pageUrl then some (norm, some pageUrl)
      else none) = _
    rw [if_neg h1, if_neg (by simp [h2])]
  refine ⟨?_, ?_, ?_⟩
  · intro hcls
    rw [hbase, if_pos hcls]
  · intro hcls
    rw [hbase, if_neg (by rw [hcls]; simp)]
    constructor
    · intro hsome
      by_cases hnl : netlocOf norm = netlocOf pageUrl
      · exact hnl
      · rw [if_neg hnl] at hsome
        exact absurd hsome (by simp)
    · intro hnl
      rw [if_pos hnl]
  · intro env html url' st hcls
    unfold discoverPhase
    rw [if_neg (by rw [hcls]; simp)]

/-- C8 (counterexample): `_clean_whitespace` applied to the empty string
returns the empty string, not null — a falsy input is returned unchanged —
refuting `normalizeWhitespace("") == null`. -/
theorem c8_counterexample_empty_not_null :
    clean_whitespace (some "") = some "" ∧ clean_whitespace (some "") ≠ none := by
  decide

/-- C8 (amended): whitespace normalization collapses any run of whitespace
(including newlines and tabs) to a single space and trims the ends, so
`_clean_whitespace("  a\n\tb  ") == "a b"`; a falsy input is returned
unchanged, so the empty string maps to the empty string (not null) and None
maps to None. -/
theorem c8_whitespace_normalization :
    clean_whitespace (some "  a\n\tb  ") = some "a b" ∧
    clean_whitespace (some "") = some "" ∧
    clean_whitespace none = none := by
  decide

/-- C9: a fault in the readability stage never aborts the rest of the
pipeline: when stage 1 raises but a semantic `article` container — or, in its
absence, a `main` container — with non-empty text is present and a social
og:title meta tag with non-blank content is present, the record still has a
non-null title (from the meta tag) and its article is the cleaned container
text, which is non-null. -/
theorem c9_readability_fault_isolated (doc : Doc) (url : String) (c t : String)
    (hfault : doc.readability = .error ())
    (hmeta : doc.metaNameTag "og:title" = some (some c))
    (hc : pyStrip c ≠ "")
    (hcont : (doc.articleTag = some (some t) ∧ t ≠ "") ∨
             (doc.articleTag = none ∧ doc.mainTag = some (some t) ∧ t ≠ "")) :
    (parse_metadata doc url).title ≠ none ∧
    (parse_metadata doc url).article = clean_whitespace (some t) ∧
    (parse_metadata doc url).article ≠ none := by
  have hcne : c ≠ "" := by
    intro he
    apply hc
    rw [he]
    rfl
  have hfm : first_meta doc ["og:title", "twitter:title", "dc.title"] = some (pyStrip c) := by
    simp [first_meta, metaContent, hmeta, hcne]
  have htruthy : truthyS (some (pyStrip c)) = true := by
    unfold truthyS
    simp [hc]
  have htne : t ≠ "" := by
    rcases hcont with ⟨_, ht⟩ | ⟨_, _, ht⟩ <;> exact ht
  have hstage1 : articleStage1 doc = none := by
    unfold articleStage1
    rw [hfault]
  have hart : resolveArticle doc = some t := by
    unfold resolveArticle
    rw [hstage1]
    rw [if_neg (by unfold truthyS; simp)]
    rcases hcont with ⟨ha, _⟩ | ⟨ha, hm, _⟩
    · rw [ha]
    · rw [ha, hm]
  have htitle : resolveTitle doc = some (pyStrip c) := by
    unfold resolveTitle
    rw [hfm]
    show (if truthyS (pyOr (some (pyStrip c)) _) = true then _ else _) = _
    unfold pyOr
    rw [if_pos htruthy, if_pos htruthy]
  have hcw : ∀ s : String, clean_whitespace (some s) ≠ none := by
    intro s
    show (if s = "" then some s else some (String.mk (trim (collapseWs s.data)))) ≠ none
    split <;> simp
  refine ⟨?_, ?_, ?_⟩
  · show clean_whitespace (resolveTitle doc) ≠ none
    rw [htitle]
    exact hcw _
  · show clean_whitespace (resolveArticle doc) = clean_whitespace (some t)
    rw [hart]
  · show clean_whitespace (resolveArticle doc) ≠ none
    rw [hart]
    exact hcw _

/-- Shared concrete configuration: one start URL, empty pattern lists. -/
def cfgW : CrawlConfig :=
  { start_urls := ["http://a.com/"], scrape_url_globs := [], pagination_url_globs := [],
    ignore_url_globs := [], max_requests_per_crawl := 5, output_file := "o" }

/-- Shared concrete successful response. -/
def respW : FetchResp := { text := "<html>x</html>", url := "http://a.com/", status_code := 200 }

/-- Shared concrete environment: every fetch succeeds with status 200, no
links, extraction succeeds. -/
def envW : Env :=
  { get := fun _ => .ok respW,
    find_links := fun _ _ => .ok [],
    parse_meta := fun _ u =>
      .ok { url := u, title := none, description := none, heading := none, article := none } }

/-- Shared empty crawl state. -/
def stW : CrawlState :=
  { to_visit := [], visited := [], results := [], num_requests := 0,
    fetched := [], extracted := [], linkPages := [] }

/-- Crawl state that has already visited the shared start URL. -/
def stV : CrawlState :=
  { to_visit := [], visited := ["http://a.com/"], results := [], num_requests := 0,
    fetched := [], extracted := [], linkPages := [] }

/-- Configuration with an ignore glob. -/
def cfgI : CrawlConfig :=
  { start_urls := ["http://a.com/"], scrape_url_globs := [], pagination_url_globs := [],
    ignore_url_globs := ["*secret*"], max_requests_per_crawl := 5, output_file := "o" }

/-- Configuration with a scrape glob. -/
def cfg6 : CrawlConfig :=
  { start_urls := ["http://a.com/"], scrape_url_globs := ["http://a.com/articles/*"],
    pagination_url_globs := [], ignore_url_globs := [], max_requests_per_crawl := 5,
    output_file := "o" }

theorem c1_witness :
    (processEntry cfgW envW stW "http://a.com/" none).num_requests = stW.num_requests + 1 ∧
    (processEntry cfgW envW stW "http://a.com/" none).fetched = stW.fetched ++ ["http://a.com/"] :=
  (c1_budget_increment_semantics cfgW envW stW "http://a.com/" none (by decide) (by decide)).2.1
    respW rfl

theorem c2_witness :
    ((runN cfgW envW 2 (initState cfgW)).fetched).Nodup ∧
    processEntry cfgW envW stV "http://a.com/" none = stV :=
  ⟨(c2_at_most_one_fetch_per_url cfgW envW).1 2,
   (c2_at_most_one_fetch_per_url cfgW envW).2 stV "http://a.com/" none (by decide)⟩

theorem c4_witness :
    should_ignore "http://a.com/" cfgI.ignore_url_globs = false ∧
    processEntry cfgI envW stW "http://x.com/secret/a" none =
      { stW with visited := "http://x.com/secret/a" :: stW.visited } :=
  ⟨(c4_ignored_never_fetched cfgI envW).1 1 "http://a.com/" (by decide),
   (c4_ignored_never_fetched cfgI envW).2 stW "http://x.com/secret/a" none (by decide) (by decide)⟩

theorem c5_witness :
    (handleResponse cfgW envW "http://a.com/" respW stW).extracted =
      stW.extracted ++ [finalUrl "http://a.com/" respW] ∧
    (handleResponse cfgW envW "http://a.com/" respW stW).linkPages =
      stW.linkPages ++ [finalUrl "http://a.com/" respW] :=
  have h := c5_extraction_policy cfgW envW stW "http://a.com/" respW (by decide)
  ⟨(h.2 rfl rfl).2.1, (h.2 rfl rfl).2.2⟩

theorem c6_witness :
    processLink cfg6 [] "http://a.com/" "http://a.com/articles/1" =
      some ("http://a.com/articles/1", some "http://a.com/") :=
  (c6_reenqueue_policy cfg6 [] "http://a.com/" "http://a.com/articles/1"
    "http://a.com/articles/1" (by decide) (by decide) (by decide)).1 (Or.inl (by decide))

/-- Document on which readability faults, with an og:title meta tag and an
article container present. -/
def doc9 : Doc :=
  { metaNameTag := fun n => if n = "og:title" then some (some "My Title") else none,
    metaPropTag := fun _ => none,
    titleTag := none, h1Tag := none, h2Tag := none,
    readability := .error (),
    articleTag := some (some "Body text"), mainTag := none, paragraphs := [] }

theorem c9_witness :
    (parse_metadata doc9 "http://a.com/").title ≠ none ∧
    (parse_metadata doc9 "http://a.com/").article = clean_whitespace (some "Body text") ∧
    (parse_metadata doc9 "http://a.com/").article ≠ none :=
  c9_readability_fault_isolated doc9 "http://a.com/" "My Title" "Body text" rfl (by decide)
    (by decide) (Or.inl ⟨by decide, by decide⟩)

theorem mem_dropWhile_imp {α : Type} (p : α → Bool) :
    ∀ (l : List α) (c : α), c ∈ l.dropWhile p → c ∈ l := by
  intro l
  induction l with
  | nil => intro c h; simp [List.dropWhile] at h
  | cons a t ih =>
    intro c h
    rw [List.dropWhile] at h
    split at h
    · exact List.mem_cons_of_mem a (ih c h)
    · exact h

theorem mem_takeWhile_imp2 {α : Type} (p : α → Bool) :
    ∀ (l : List α) (c : α), c ∈ l.takeWhile p → c ∈ l ∧ p c = true := by
  intro l
  induction l with
  | nil => intro c h; simp [List.takeWhile] at h
  | cons a t ih =>
    intro c h
    rw [List.takeWhile] at h
    split at h
    · rcases List.mem_cons.mp h with he | ht
      · subst he
        exact ⟨List.mem_cons_self _ _, by assumption⟩
      · obtain ⟨h1, h2⟩ := ih c ht
        exact ⟨List.mem_cons_of_mem a h1, h2⟩
    · simp at h

theorem mem_trim_imp : ∀ (l : List Char) (c : Char), c ∈ trim l → c ∈ l := by
  intro l c h
  unfold trim at h
  rw [List.mem_reverse] at h
  have h2 := mem_dropWhile_imp pyWs _ _ h
  rw [List.mem_reverse] at h2
  exact mem_dropWhile_imp pyWs _ _ h2

theorem dropWs_head_not_ws : ∀ (l : List Char) (c : Char),
    (dropWs l).head? = some c → pyWs c = false := by
  intro l
  induction l with
  | nil => intro c h; simp [dropWs, List.dropWhile] at h
  | cons a t ih =>
    intro c h
    unfold dropWs at h
    rw [List.dropWhile] at h
    split at h
    · exact ih c h
    · simp at h
      subst h
      rename_i ha
      exact ha

theorem dropWs_eq_self_of_head (l : List Char)
    (h : ∀ c, l.head? = some c → pyWs c = false) : dropWs l = l := by
  cases l with
  | nil => rfl
  | cons a t =>
    unfold dropWs
    rw [List.dropWhile]
    rw [h a rfl]

theorem dropWs_getLast? : ∀ l : List Char,
    dropWs l = [] ∨ (dropWs l).getLast? = l.getLast? := by
  intro l
  induction l with
  | nil => exact Or.inl rfl
  | cons a t ih =>
    by_cases hws : pyWs a = true
    · have hstep : dropWs (a :: t) = dropWs t := by
        unfold dropWs
        rw [List.dropWhile]
        rw [hws]
      rcases ih with h | h
      · exact Or.inl (hstep.trans h)
      · cases t with
        | nil => exact Or.inl (by rw [hstep]; rfl)
        | cons b t2 =>
          refine Or.inr ?_
          rw [hstep, h]
          rfl
    · have hstep : dropWs (a :: t) = a :: t := by
        unfold dropWs
        rw [List.dropWhile]
        rw [bool_eq_false_of_not hws]
      exact Or.inr (by rw [hstep])

theorem trim_eq_self_of_ends (l : List Char)
    (hh : ∀ c, l.head? = some c → pyWs c = false)
    (hl : ∀ c, l.getLast? = some c → pyWs c = false) : trim l = l := by
  unfold trim
  rw [dropWs_eq_self_of_head l hh]
  rw [dropWs_eq_self_of_head l.reverse (by
    intro c hc
    rw [List.head?_reverse] at hc
    exact hl c hc)]
  exact List.reverse_reverse l

theorem trim_idem (l : List Char) : trim (trim l) = trim l := by
  rcases hx : dropWs (dropWs l).reverse with _ | ⟨c, cs⟩
  · have h1 : trim l = [] := by
      unfold trim
      rw [hx]
      rfl
    rw [h1]
    rfl
  · have h1 : trim l = (c :: cs).reverse := by
      unfold trim
      rw [hx]
    have hchead : pyWs c = false := by
      apply dropWs_head_not_ws (dropWs l).reverse
      rw [hx]
      rfl
    have hlast : ∀ d, (c :: cs).getLast? = some d → pyWs d = false := by
      intro d hd
      rcases dropWs_getLast? (dropWs l).reverse with h2 | h2
      · rw [hx] at h2
        simp at h2
      · rw [hx] at h2
        rw [h2] at hd
        rw [List.getLast?_reverse] at hd
        exact dropWs_head_not_ws l d hd
    rw [h1]
    apply trim_eq_self_of_ends
    · intro d hd
      rw [List.head?_reverse] at hd
      exact hlast d hd
    · intro d hd
      rw [List.getLast?_reverse] at hd
      simp at hd
      subst hd
      exact hchead

theorem containsC_eq_false_iff (a : Char) (l : List Char) :
    containsC a l = false ↔ a ∉ l := by
  unfold containsC
  constructor
  · intro h hm
    have : l.any (fun x => x == a) = true := List.any_eq_true.mpr ⟨a, hm, by simp⟩
    rw [h] at this
    exact Bool.false_ne_true this
  · intro h
    by_cases hb : l.any (fun x => x == a) = true
    · obtain ⟨x, hx, he⟩ := List.any_eq_true.mp hb
      simp at he
      subst he
      exact absurd hx h
    · exact bool_eq_false_of_not hb

theorem urldefrag_no_hash (l : List Char) (h : containsC '#' l = false) :
    urldefrag l = l := by
  unfold urldefrag
  rw [h]
  rfl

theorem takeWhile_append_all {p : Char → Bool} :
    ∀ (l m : List Char), (∀ c ∈ l, p c = true) →
      (l ++ m).takeWhile p = l ++ m.takeWhile p := by
  intro l
  induction l with
  | nil => intro m _; rfl
  | cons a t ih =>
    intro m h
    rw [List.cons_append, List.takeWhile]
    rw [h a (List.mem_cons_self _ _)]
    rw [ih m (fun c hc => h c (List.mem_cons_of_mem a hc))]
    rfl

theorem dropWhile_append_all {p : Char → Bool} :
    ∀ (l m : List Char), (∀ c ∈ l, p c = true) →
      (l ++ m).dropWhile p = m.dropWhile p := by
  intro l
  induction l with
  | nil => intro m _; rfl
  | cons a t ih =>
    intro m h
    rw [List.cons_append, List.dropWhile]
    rw [h a (List.mem_cons_self _ _)]
    exact ih m (fun c hc => h c (List.mem_cons_of_mem a hc))

theorem urlparse_nil : urlparse [] =
    { scheme := [], netloc := [], path := [], params := [], query := [], frag := [] } := rfl

theorem splitScheme_snd_mem : ∀ (u : List Char) (c : Char), c ∈ (splitScheme u).2 → c ∈ u := by
  intro u c h
  unfold splitScheme at h
  split at h
  · rename_i rest heq
    split at h
    · exact h
    · split at h
      · have h2 : c ∈ ':' :: rest := List.mem_cons_of_mem _ h
        rw [← heq] at h2
        exact mem_dropWhile_imp _ u c h2
      · exact h
  · exact h

theorem urlparse_netloc_chars : ∀ (u : List Char) (c : Char),
    c ∈ (urlparse u).netloc →
    notDelim c = true ∧ (c == '\t' || c == '\r' || c == '\n') = false := by
  intro u c h
  simp only [urlparse] at h
  split at h
  · unfold splitNetloc at h
    obtain ⟨hmem, hpred⟩ := mem_takeWhile_imp2 notDelim _ c h
    refine ⟨hpred, ?_⟩
    have h2 : c ∈ (splitScheme (removeUnsafe (urlparse.lstripC0 u))).2 :=
      (List.drop_sublist 2 _).mem hmem
    have h3 : c ∈ removeUnsafe (urlparse.lstripC0 u) := splitScheme_snd_mem _ c h2
    have h4 := (List.mem_filter.mp h3).2
    simp at h4
    simp [h4]
  · simp at h

theorem dropWhile_cons_false {p : Char → Bool} {a : Char} (l : List Char) (h : p a = false) :
    (a :: l).dropWhile p = a :: l := by
  rw [List.dropWhile]
  rw [h]

theorem takeWhile_cons_false {p : Char → Bool} {a : Char} (l : List Char) (h : p a = false) :
    (a :: l).takeWhile p = [] := by
  rw [List.takeWhile]
  rw [h]

/-- Parsing the string `normalize_url` rebuilds for a bare host —
`scheme ++ "://" ++ netloc ++ "/"` — recovers the same scheme and netloc with
path "/", provided the scheme is a valid lower-case scheme without colons or
unsafe bytes and the netloc contains no delimiter and no unsafe byte (which
`urlparse` guarantees for its own netloc output). -/
theorem urlparse_rebuilt (c0 : Char) (cs0 N : List Char)
    (halpha : c0.isAlpha = true)
    (hall : (c0 :: cs0).all isSchemeChar = true)
    (hlower : (c0 :: cs0).map Char.toLower = c0 :: cs0)
    (hnc : ∀ c ∈ c0 :: cs0, (c != ':') = true)
    (hns : ∀ c ∈ c0 :: cs0, (c == '\t' || c == '\r' || c == '\n') = false)
    (hc0 : isC0OrSpace c0 = false)
    (hN1 : ∀ c ∈ N, notDelim c = true)
    (hN2 : ∀ c ∈ N, (c == '\t' || c == '\r' || c == '\n') = false) :
    urlparse ((c0 :: cs0) ++ ':' :: '/' :: '/' :: (N ++ ['/'])) =
      { scheme := c0 :: cs0, netloc := N, path := ['/'],
        params := [], query := [], frag := [] } := by
  have e1 : urlparse.lstripC0 ((c0 :: cs0) ++ ':' :: '/' :: '/' :: (N ++ ['/'])) =
      (c0 :: cs0) ++ ':' :: '/' :: '/' :: (N ++ ['/']) :=
    dropWhile_cons_false _ hc0
  have e2 : removeUnsafe ((c0 :: cs0) ++ ':' :: '/' :: '/' :: (N ++ ['/'])) =
      (c0 :: cs0) ++ ':' :: '/' :: '/' :: (N ++ ['/']) := by
    apply List.filter_eq_self.mpr
    intro a ha
    rw [List.mem_append] at ha
    rcases ha with ha | ha
    · have h := hns a ha
      simp [h]
    · simp only [List.mem_cons, List.mem_append] at ha
      rcases ha with rfl | rfl | rfl | ha | ha
      · decide
      · decide
      · decide
      · have h := hN2 a ha
        simp [h]
      · simp at ha
        subst ha
        decide
  have e3 : splitScheme ((c0 :: cs0) ++ ':' :: '/' :: '/' :: (N ++ ['/'])) =
      (c0 :: cs0, '/' :: '/' :: (N ++ ['/'])) := by
    have hdw : ((c0 :: cs0) ++ ':' :: '/' :: '/' :: (N ++ ['/'])).dropWhile
        (fun c => c != ':') = ':' :: '/' :: '/' :: (N ++ ['/']) := by
      rw [dropWhile_append_all _ _ hnc]
      exact dropWhile_cons_false _ (by decide)
    have htw : ((c0 :: cs0) ++ ':' :: '/' :: '/' :: (N ++ ['/'])).takeWhile
        (fun c => c != ':') = c0 :: cs0 := by
      rw [takeWhile_append_all _ _ hnc]
      rw [takeWhile_cons_false _ (by decide)]
      exact List.append_nil _
    unfold splitScheme
    rw [hdw, htw]
    show (if c0.isAlpha && (c0 :: cs0).all isSchemeChar then
        ((c0 :: cs0).map Char.toLower, '/' :: '/' :: (N ++ ['/']))
      else ([], (c0 :: cs0) ++ ':' :: '/' :: '/' :: (N ++ ['/']))) =
      (c0 :: cs0, '/' :: '/' :: (N ++ ['/']))
    rw [halpha, hall]
    simp [hlower]
  have e4 : (if ((c0 :: cs0, '/' :: '/' :: (N ++ ['/'])).2.take 2 = ['/', '/'])
        then splitNetloc (c0 :: cs0, '/' :: '/' :: (N ++ ['/'])).2
        else ([], (c0 :: cs0, '/' :: '/' :: (N ++ ['/'])).2)) = (N, ['/']) := by
    have hcond : (c0 :: cs0, '/' :: '/' :: (N ++ ['/'])).2.take 2 = ['/', '/'] := rfl
    rw [if_pos hcond]
    show ((N ++ ['/']).takeWhile notDelim, (N ++ ['/']).dropWhile notDelim) = (N, ['/'])
    rw [takeWhile_append_all _ _ hN1, dropWhile_append_all _ _ hN1]
    rw [takeWhile_cons_false _ (by decide), dropWhile_cons_false _ (by decide)]
    rw [List.append_nil]
  simp only [urlparse]
  rw [e1, e2, e3, e4]
  rfl

theorem normalize_url_some_eq (s : String) (hne : ¬ s = "") :
    normalize_url (some s) =
      (if (urlparse (urldefrag (trim s.data))).scheme = [] then none
       else if ((urlparse (urldefrag (trim s.data))).scheme = "http".data ∨
                (urlparse (urldefrag (trim s.data))).scheme = "https".data) ∧
               (urlparse (urldefrag (trim s.data))).path = [] then
         some (String.mk ((urlparse (urldefrag (trim s.data))).scheme ++ ':' :: '/' :: '/' ::
           ((urlparse (urldefrag (trim s.data))).netloc ++ ['/'])))
       else some (String.mk (urldefrag (trim s.data)))) := by
  show (if s = "" then none
       else if (urlparse (urldefrag (trim s.data))).scheme = [] then none
       else if ((urlparse (urldefrag (trim s.data))).scheme = "http".data ∨
                (urlparse (urldefrag (trim s.data))).scheme = "https".data) ∧
               (urlparse (urldefrag (trim s.data))).path = [] then
         some (String.mk ((urlparse (urldefrag (trim s.data))).scheme ++ ':' :: '/' :: '/' ::
           ((urlparse (urldefrag (trim s.data))).netloc ++ ['/'])))
       else some (String.mk (urldefrag (trim s.data)))) = _
  rw [if_neg hne]

/-- The bare-host string `normalize_url` rebuilds is a fixed point of
`normalize_url`: it has no outer whitespace, no fragment, and re-parses to
the same scheme and netloc with path "/", so the second pass returns it
unchanged. -/
theorem normalize_url_rebuilt_fixed (c0 : Char) (cs0 N : List Char)
    (halpha : c0.isAlpha = true)
    (hall : (c0 :: cs0).all isSchemeChar = true)
    (hlower : (c0 :: cs0).map Char.toLower = c0 :: cs0)
    (hnc : ∀ c ∈ c0 :: cs0, (c != ':') = true)
    (hns : ∀ c ∈ c0 :: cs0, (c == '\t' || c == '\r' || c == '\n') = false)
    (hc0 : isC0OrSpace c0 = false)
    (hc0ws : pyWs c0 = false)
    (hN1 : ∀ c ∈ N, notDelim c = true)
    (hN2 : ∀ c ∈ N, (c == '\t' || c == '\r' || c == '\n') = false) :
    normalize_url (some (String.mk ((c0 :: cs0) ++ ':' :: '/' :: '/' :: (N ++ ['/'])))) =
      some (String.mk ((c0 :: cs0) ++ ':' :: '/' :: '/' :: (N ++ ['/']))) := by
  have hdata : (String.mk ((c0 :: cs0) ++ ':' :: '/' :: '/' :: (N ++ ['/']))).data =
      (c0 :: cs0) ++ ':' :: '/' :: '/' :: (N ++ ['/']) := rfl
  have hone : ¬ String.mk ((c0 :: cs0) ++ ':' :: '/' :: '/' :: (N ++ ['/'])) = "" := by
    intro he
    have := congrArg String.data he
    rw [hdata] at this
    simp at this
  have hassoc : (c0 :: cs0) ++ ':' :: '/' :: '/' :: (N ++ ['/']) =
      ((c0 :: cs0) ++ ':' :: '/' :: '/' :: N) ++ ['/'] := by
    simp
  have htrim : trim ((c0 :: cs0) ++ ':' :: '/' :: '/' :: (N ++ ['/'])) =
      (c0 :: cs0) ++ ':' :: '/' :: '/' :: (N ++ ['/']) := by
    apply trim_eq_self_of_ends
    · intro c hc
      have : c = c0 := by
        have h2 : ((c0 :: cs0) ++ ':' :: '/' :: '/' :: (N ++ ['/'])).head? = some c0 := rfl
        rw [h2] at hc
        exact (Option.some.injEq _ _).mp hc.symm
      subst this
      exact hc0ws
    · intro c hc
      rw [hassoc, List.getLast?_concat] at hc
      have : c = '/' := (Option.some.injEq _ _).mp hc.symm
      subst this
      decide
  have hhash : containsC '#' ((c0 :: cs0) ++ ':' :: '/' :: '/' :: (N ++ ['/'])) = false := by
    apply (containsC_eq_false_iff _ _).mpr
    intro hm
    rw [List.mem_append] at hm
    rcases hm with hm | hm
    · have := List.all_eq_true.mp hall '#' hm
      exact absurd this (by decide)
    · simp only [List.mem_cons, List.mem_append] at hm
      rcases hm with hm | hm | hm | hm | hm
      · exact absurd hm (by decide)
      · exact absurd hm (by decide)
      · exact absurd hm (by decide)
      · have := hN1 '#' hm
        simp [notDelim] at this
      · simp at hm
  have hreb := urlparse_rebuilt c0 cs0 N halpha hall hlower hnc hns hc0 hN1 hN2
  rw [normalize_url_some_eq _ hone]
  rw [hdata, htrim, urldefrag_no_hash _ hhash, hreb]
  rw [if_neg (by simp)]
  rw [if_neg (by
    intro hcon
    have := hcon.2
    simp at this)]

/-- C7 (amended): URL normalization is idempotent on every input that
contains no `#` character (and on None):
`normalize(normalize u) = normalize u`.  For fragment-bearing inputs whose
pre-fragment part ends in whitespace, idempotence can fail, because the
fragment is stripped only after the trim, leaving trailing whitespace that a
second pass would remove — see the counterexample. -/
theorem c7_normalize_idempotent_no_hash (u : Option String)
    (h : ∀ s, u = some s → ('#' : Char) ∉ s.data) :
    normalize_url (normalize_url u) = normalize_url u := by
  rcases u with _ | s
  · rfl
  · by_cases hne : s = ""
    · subst hne
      rfl
    · have hnh1 : ('#' : Char) ∉ trim s.data := fun hm => h s rfl (mem_trim_imp _ _ hm)
      have hcf : containsC '#' (trim s.data) = false :=
        (containsC_eq_false_iff _ _).mpr hnh1
      have hdefrag : urldefrag (trim s.data) = trim s.data := urldefrag_no_hash _ hcf
      rw [normalize_url_some_eq s hne, hdefrag]
      by_cases hsch : (urlparse (trim s.data)).scheme = []
      · rw [if_pos hsch]
        rfl
      · rw [if_neg hsch]
        by_cases hcond : ((urlparse (trim s.data)).scheme = "http".data ∨
            (urlparse (trim s.data)).scheme = "https".data) ∧
            (urlparse (trim s.data)).path = []
        · rw [if_pos hcond]
          obtain ⟨hs, _⟩ := hcond
          have hN1 : ∀ c ∈ (urlparse (trim s.data)).netloc, notDelim c = true :=
            fun c hc => (urlparse_netloc_chars _ c hc).1
          have hN2 : ∀ c ∈ (urlparse (trim s.data)).netloc,
              (c == '\t' || c == '\r' || c == '\n') = false :=
            fun c hc => (urlparse_netloc_chars _ c hc).2
          rcases hs with hs | hs <;> rw [hs]
          · exact normalize_url_rebuilt_fixed 'h' ['t', 't', 'p'] _ (by decide) (by decide)
              (by decide) (by decide) (by decide) (by decide) (by decide) hN1 hN2
          · exact normalize_url_rebuilt_fixed 'h' ['t', 't', 'p', 's'] _ (by decide) (by decide)
              (by decide) (by decide) (by decide) (by decide) (by decide) hN1 hN2
        · rw [if_neg hcond]
          have hTne : ¬ (String.mk (trim s.data)) = "" := by
            intro he
            have h3 : trim s.data = [] := congrArg String.data he
            rw [h3] at hsch
            exact hsch (by rw [urlparse_nil])
          rw [normalize_url_some_eq _ hTne]
          have hdata2 : (String.mk (trim s.data)).data = trim s.data := rfl
          rw [hdata2, trim_idem, hdefrag]
          rw [if_neg hsch, if_neg hcond]

/-- C7 (counterexample): normalization is not idempotent as claimed for all
inputs: for `"http://x.com/a #f"` the first pass keeps the space before the
stripped fragment as a trailing space (the trim happens before the fragment
is dropped), and only the second pass removes it. -/
theorem c7_counterexample_not_idempotent :
    normalize_url (some "http://x.com/a #f") = some "http://x.com/a " ∧
    normalize_url (some "http://x.com/a ") = some "http://x.com/a" ∧
    normalize_url (normalize_url (some "http://x.com/a #f")) ≠
      normalize_url (some "http://x.com/a #f") := by
  decide

theorem c7_witness :
    normalize_url (normalize_url (some "http://a.com/x")) =
      normalize_url (some "http://a.com/x") :=
  c7_normalize_idempotent_no_hash (some "http://a.com/x") (by
    intro s hs
    cases hs
    decide)
